import Mathlib

/-
Verification of the terminal-UI engine in src/terminal.py: a shallow
embedding of its escape-sequence parser, cell/grid data model, input
buffer, cursor movement and diff/render engine, together with proofs of
the specified properties.

Characters fed to the escape parser are modelled by their code points
(Nat).  Side effects on the output stream are modelled as an explicit
trace of emitted items (escape sequences and glyph writes).
-/

/-- Code point of ESC (0x1b), the module-level constant ESC. -/
def ESC : Nat := 27

/-- Code point of the left bracket: ESC followed by it forms CSI. -/
def LBRACKET : Nat := 91

/-- States of the suspendable generator AnsiEscapeParser: normal text,
just after ESC, accumulating CSI parameter bytes, accumulating CSI
intermediate bytes (with the parameters already collected). -/
inductive PState : Type
  | normal : PState
  | sawEsc : PState
  | inParams : List Nat → PState
  | inInter : List Nat → List Nat → PState
deriving DecidableEq

/-- One resumption of AnsiEscapeParser: feed one character, obtain the
next state, an optional plain character emitted downstream, and an
optional completed-sequence callback invocation carrying
(parameter string, intermediate bytes ++ final byte); or the
NotImplementedError payload (high nibble, low nibble) for an
unsupported two-character escape. -/
def feed : PState → Nat → Except (Nat × Nat) (PState × Option Nat × Option (List Nat × List Nat))
  | .normal, c =>
      if c = ESC then .ok (.sawEsc, none, none)
      else .ok (.normal, some c, none)
  | .sawEsc, c =>
      if c = LBRACKET then .ok (.inParams [], none, none)
      else .error (c >>> 4, c &&& 15)
  | .inParams ps, c =>
      if 48 ≤ c ∧ c < 64 then .ok (.inParams (ps ++ [c]), none, none)
      else if 32 ≤ c ∧ c < 48 then .ok (.inInter ps [c], none, none)
      else .ok (.normal, none, some (ps, [c]))
  | .inInter ps cd, c =>
      if 32 ≤ c ∧ c < 48 then .ok (.inInter ps (cd ++ [c]), none, none)
      else .ok (.normal, none, some (ps, cd ++ [c]))

/-- Drive the parser character by character over an input list,
collecting the emitted plain characters and the callback invocations in
stream order; parsing stops at the first unsupported-escape error,
keeping everything emitted before it. -/
def runP : PState → List Nat → List Nat × List (List Nat × List Nat) × Except (Nat × Nat) PState
  | s, [] => ([], [], .ok s)
  | s, c :: cs =>
      match feed s c with
      | .error e => ([], [], .error e)
      | .ok (s', out, cb) =>
          let r := runP s' cs
          (out.toList ++ r.1, cb.toList ++ r.2.1, r.2.2)

/-- An item of a well-formed input stream: either a plain character or a
complete CSI sequence with parameter bytes, intermediate bytes and a
final byte. -/
inductive Tok : Type
  | plain : Nat → Tok
  | csi : List Nat → List Nat → Nat → Tok

/-- Well-formedness: a plain character is not ESC; a CSI sequence has
parameter bytes in 0x30-0x3f, intermediate bytes in 0x20-0x2f and a
final byte in 0x40-0x7e. -/
def Tok.wf : Tok → Prop
  | .plain c => c ≠ ESC
  | .csi ps cd f =>
      (∀ p ∈ ps, 48 ≤ p ∧ p < 64) ∧ (∀ i ∈ cd, 32 ≤ i ∧ i < 48) ∧ 64 ≤ f ∧ f ≤ 126

instance (t : Tok) : Decidable t.wf := by
  cases t <;> simp only [Tok.wf] <;> infer_instance

/-- The characters a stream item occupies on the wire. -/
def Tok.bytes : Tok → List Nat
  | .plain c => [c]
  | .csi ps cd f => ESC :: LBRACKET :: (ps ++ (cd ++ [f]))

/-- The plain characters an item should contribute downstream. -/
def Tok.plainOut : Tok → List Nat
  | .plain c => [c]
  | .csi _ _ _ => []

/-- The callback invocations an item should trigger. -/
def Tok.cbOut : Tok → List (List Nat × List Nat)
  | .plain _ => []
  | .csi ps cd f => [(ps, cd ++ [f])]

/-- All plain characters of a stream, in order. -/
def plainsOf (ts : List Tok) : List Nat := ts.flatMap Tok.plainOut

/-- All expected callback invocations of a stream, in order. -/
def cbsOf (ts : List Tok) : List (List Nat × List Nat) := ts.flatMap Tok.cbOut

/-- InputWrapper.read, returning (returned string, remaining buffer):
string = buf[:n] and the new buffer is buf[n:].  With a count n these
slices are take n / drop n; with no count both slices are the whole
string (buf[:None] and buf[None:] in Python), so everything is returned
and the buffer is left unchanged. -/
def InputWrapper.read (buf : List Char) (n : Option Nat) : List Char × List Char :=
  match n with
  | none => (buf, buf)
  | some n => (buf.take n, buf.drop n)

/-- A screen cell (CellType): glyph, foreground, background and the
attribute bitmask. -/
structure Cell where
  ch : Char
  fg : Nat
  bg : Nat
  attr : Nat
deriving DecidableEq

/-- The zero-initialised cell a fresh ctypes CellType holds. -/
def defaultCell : Cell := { ch := '\x00', fg := 0, bg := 0, attr := 0 }

def BOLD : Nat := 1
def FAINT : Nat := 2
def ITALIC : Nat := 3
def UNDERLINE : Nat := 4
def BLINK_SLOW : Nat := 5
def BLINK_FAST : Nat := 6
def REVERSE_VIDEO : Nat := 7
def CONCEAL : Nat := 8
def STRIKE_OUT : Nat := 9
def FRAKTUR : Nat := 20
def FG_OFFSET : Nat := 30
def BG_OFFSET : Nat := 40

/-- ATTR_FORMAT: the canonical attribute order; a cell attribute's bit
index is its position in this list. -/
def ATTR_FORMAT : List Nat :=
  [BOLD, FAINT, ITALIC, UNDERLINE, BLINK_SLOW, BLINK_FAST, REVERSE_VIDEO,
   CONCEAL, STRIKE_OUT, FRAKTUR, FG_OFFSET, BG_OFFSET]

/-- attr_index: position of an attribute code in ATTR_FORMAT. -/
def attr_index (a : Nat) : Nat := ATTR_FORMAT.indexOf a

def BOLD_FAINT_OFF : Nat := 22
def ITALIC_FRAKTUR_OFF : Nat := 23
def UNDERLINE_OFF : Nat := 24
def BLINK_OFF : Nat := 25
def REVERSE_VIDEO_OFF : Nat := 27
def CONCEAL_OFF : Nat := 28
def STRIKE_OUT_OFF : Nat := 29
def DEFAULT_FG : Nat := 39
def DEFAULT_BG : Nat := 49

/-- attr_off: the SGR code turning an attribute off (0 stands for the
unreachable fall-through where the Python function yields None). -/
def attr_off (a : Nat) : Nat :=
  if a = BOLD ∨ a = FAINT then BOLD_FAINT_OFF
  else if a = ITALIC ∨ a = FRAKTUR then ITALIC_FRAKTUR_OFF
  else if a = UNDERLINE then UNDERLINE_OFF
  else if a = BLINK_SLOW ∨ a = BLINK_FAST then BLINK_OFF
  else if a = REVERSE_VIDEO then REVERSE_VIDEO_OFF
  else if a = CONCEAL then CONCEAL_OFF
  else if a = STRIKE_OUT then STRIKE_OUT_OFF
  else if a = FG_OFFSET then DEFAULT_FG
  else if a = BG_OFFSET then DEFAULT_BG
  else 0

/-- CellType.has_attr: test the attribute's bit in the mask. -/
def Cell.has_attr (cell : Cell) (a : Nat) : Bool :=
  cell.attr &&& (1 <<< attr_index a) != 0

/-- CellType.attr_changed: style fields differ from the old cell. -/
def Cell.attr_changed (nw old : Cell) : Bool :=
  !(nw.fg == old.fg && nw.bg == old.bg && nw.attr == old.attr)

/-- The bit forcing in Window's indexed assignment: turn the colour
is-set bits on for nonzero colours before storing the cell. -/
def forceColorBits (cell : Cell) : Cell :=
  let a1 := if cell.fg ≠ 0 then cell.attr ||| (1 <<< attr_index FG_OFFSET) else cell.attr
  let a2 := if cell.bg ≠ 0 then a1 ||| (1 <<< attr_index BG_OFFSET) else a1
  { cell with attr := a2 }

/-- A Window: a rows x cols grid of cells, stored row-major. -/
structure Window where
  rows : Nat
  cols : Nat
  buf : List Cell
deriving DecidableEq

/-- Window indexed access buf[r * cols + c]. -/
def Window.getcell (w : Window) (r c : Nat) : Cell :=
  w.buf.getD (r * w.cols + c) defaultCell

/-- Window indexed assignment: force the colour is-set bits, then store
the cell at buf[r * cols + c]. -/
def Window.setcell (w : Window) (r c : Nat) (cell : Cell) : Window :=
  { w with buf := w.buf.set (r * w.cols + c) (forceColorBits cell) }

/-- Window.fill: overwrite every cell with the given glyph, colours and
attribute mask, exactly as given (no bit forcing). -/
def Window.fill (w : Window) (ch : Char) (fg bg attr : Nat) : Window :=
  { w with buf := w.buf.map (fun _ => { ch := ch, fg := fg, bg := bg, attr := attr }) }

/-- Window construction: allocate rows x cols zeroed cells, then fill. -/
def Window.new (rows cols : Nat) (ch : Char) (fg bg attr : Nat) : Window :=
  (Window.mk rows cols (List.replicate (rows * cols) defaultCell)).fill ch fg bg attr

/-- An item written to the output stream: a CSI escape sequence with its
final code and integer parameters, or a plain glyph. -/
inductive Item : Type
  | esc : Char → List Int → Item
  | glyph : Char → Item
deriving DecidableEq

def CURSOR_UP : Char := 'A'
def CURSOR_DOWN : Char := 'B'
def CURSOR_RIGHT : Char := 'C'
def CURSOR_LEFT : Char := 'D'
def CURSOR_POS : Char := 'H'
def SGR : Char := 'm'

/-- color_attr: SGR parameter encoding of a colour; values below 8 use
the plain offset code, larger values the extended 5;index form. -/
def color_attr (offset color : Nat) : List Int :=
  if color < 8 then [((offset + color : Nat) : Int)]
  else [((offset + 8 : Nat) : Int), 5, (color : Int)]

/-- The SGR parameter list refresh builds for a changed cell, walking
ATTR_FORMAT in order. -/
def sgr_args (nw old : Cell) : List Int :=
  ATTR_FORMAT.flatMap (fun a =>
    if a == FG_OFFSET || a == BG_OFFSET then
      if nw.has_attr a then
        if a == FG_OFFSET && (!(old.has_attr FG_OFFSET) || nw.fg != old.fg) then
          color_attr FG_OFFSET nw.fg
        else if a == BG_OFFSET && (!(old.has_attr BG_OFFSET) || nw.bg != old.bg) then
          color_attr BG_OFFSET nw.bg
        else []
      else []
    else if nw.has_attr a && !(old.has_attr a) then [(a : Int)]
    else if !(nw.has_attr a) && old.has_attr a then [((attr_off a : Nat) : Int)]
    else [])

/-- Terminal.move_cursor: clamp the 1-indexed target into range, then
emit one absolute move if both deltas are nonzero, one relative move if
exactly one is, nothing if the cursor is already there; the tracked
position becomes the clamped target unconditionally. -/
def move_cursor (rows cols : Nat) (pos : Int × Int) (row col : Int) : (Int × Int) × List Item :=
  let row := min (max row 1) (rows : Int)
  let col := min (max col 1) (cols : Int)
  let dr := row - pos.1
  let dc := col - pos.2
  let out :=
    if dr ≠ 0 ∧ dc ≠ 0 then [Item.esc CURSOR_POS [row, col]]
    else if dr > 0 then [Item.esc CURSOR_DOWN [dr]]
    else if dr < 0 then [Item.esc CURSOR_UP [-dr]]
    else if dc > 0 then [Item.esc CURSOR_RIGHT [dc]]
    else if dc < 0 then [Item.esc CURSOR_LEFT [-dc]]
    else []
  ((row, col), out)

/-- Terminal.increment_cursor: advance the tracked column by one; when
the advanced column equals cols, move to the next row at column 0. -/
def increment_cursor (cols : Nat) (pos : Int × Int) : Int × Int :=
  let c := pos.2 + 1
  if c = (cols : Int) then (pos.1 + 1, 0) else (pos.1, c)

/-- The controller state refresh works on: terminal dimensions, the
tracked cursor position, the pending grid stdscr and the shown grid
curscr. -/
structure Terminal where
  rows : Nat
  cols : Nat
  cursor_pos : Int × Int
  stdscr : Window
  curscr : Window
deriving DecidableEq

/-- One iteration of the refresh loop at cell (r, c): when pending and
shown differ there, move the cursor if it is elsewhere, emit one SGR
escape if the style changed, write the glyph, store the (bit-forced)
cell into the shown grid — the store writes the forced bits back through
the shared ctypes cell view into the pending grid as well — and advance
the tracked cursor. -/
def refreshCell (t : Terminal) (r c : Nat) : Terminal × List Item :=
  let old := t.curscr.getcell r c
  let nw := t.stdscr.getcell r c
  if nw = old then (t, [])
  else
    let mv := if t.cursor_pos ≠ ((r : Int) + 1, (c : Int) + 1)
              then move_cursor t.rows t.cols t.cursor_pos ((r : Int) + 1) ((c : Int) + 1)
              else (t.cursor_pos, [])
    let sg : List Item := if Cell.attr_changed nw old
                          then [Item.esc SGR (sgr_args nw old)] else []
    ({ t with
        cursor_pos := increment_cursor t.cols mv.1,
        stdscr := t.stdscr.setcell r c nw,
        curscr := t.curscr.setcell r c nw },
     mv.2 ++ (sg ++ [Item.glyph nw.ch]))

/-- Run the refresh loop over a list of cell coordinates, threading the
state and concatenating the output trace. -/
def refreshGo (t : Terminal) : List (Nat × Nat) → Terminal × List Item
  | [] => (t, [])
  | rc :: rest =>
      let s := refreshCell t rc.1 rc.2
      let s2 := refreshGo s.1 rest
      (s2.1, s.2 ++ s2.2)

/-- The row-major coordinate order of the refresh loop. -/
def cells (rows cols : Nat) : List (Nat × Nat) :=
  (List.range rows).flatMap (fun r => (List.range cols).map (fun c => (r, c)))

/-- Terminal.refresh: diff pending against shown cell by cell in
row-major order, returning the updated state and the output trace. -/
def refresh (t : Terminal) : Terminal × List Item :=
  refreshGo t (cells t.rows t.cols)

/-- The escape codes of cursor movement sequences. -/
def isMoveEsc : Item → Bool
  | .esc c _ => c == CURSOR_UP || c == CURSOR_DOWN || c == CURSOR_RIGHT ||
      c == CURSOR_LEFT || c == CURSOR_POS
  | .glyph _ => false

/-- Style (SGR) escape sequences. -/
def isSgrEsc : Item → Bool
  | .esc c _ => c == SGR
  | .glyph _ => false

/-- Glyph writes. -/
def isGlyphW : Item → Bool
  | .esc _ _ => false
  | .glyph _ => true

/-- Python str.split with separator character: splitting the empty
string yields one empty field. -/
def splitSemi : List Char → List (List Char)
  | [] => [[]]
  | ch :: rest =>
      match splitSemi rest with
      | [] => [[ch]]
      | g :: gs => if ch = ';' then [] :: g :: gs else (ch :: g) :: gs

/-- Python int() on a CSI parameter field: defined on nonempty digit
strings, a ValueError (none) otherwise — in particular on the empty
string. -/
def pyInt (s : List Char) : Option Int :=
  if !s.isEmpty && s.all (fun ch => ch.isDigit) then
    some ((s.foldl (fun acc ch => acc * 10 + (ch.toNat - 48)) 0 : Nat) : Int)
  else none

/-- map(int, fields): all fields parsed, or the first ValueError. -/
def pyIntAll : List (List Char) → Option (List Int)
  | [] => some []
  | s :: rest =>
      match pyInt s, pyIntAll rest with
      | some v, some vs => some (v :: vs)
      | _, _ => none

/-- Terminal.cpr_callback: resolve the in-flight cursor-position query
to the reported coordinates (waking the waiter). -/
def cpr_callback (_cursorPos : Option (Int × Int)) (row col : Int) : Option (Int × Int) :=
  some (row, col)

/-- Terminal.handle_escape with the default registry {CPR ('R')}:
split the parameter string on semicolons, parse every field as an
integer, and apply cpr_callback with its defaults row=1, col=1 filling
in missing arguments; an unparsable field (ValueError) or an arity
overflow (TypeError) is an error. -/
def handle_escape (cursorPos : Option (Int × Int)) (params code : List Char) :
    Except Unit (Option (Int × Int)) :=
  if code = ['R'] then
    match pyIntAll (splitSemi params) with
    | none => .error ()
    | some [] => .ok (cpr_callback cursorPos 1 1)
    | some [r] => .ok (cpr_callback cursorPos r 1)
    | some [r, c] => .ok (cpr_callback cursorPos r c)
    | some _ => .error ()
  else .ok cursorPos

/-- Pending grids whose colour is-set bits are consistent: every cell
with a nonzero foreground (background) has the corresponding derived
attribute bit on. -/
def colorBitsSet (w : Window) : Prop :=
  ∀ cell ∈ w.buf, (cell.fg ≠ 0 → cell.has_attr FG_OFFSET = true) ∧
    (cell.bg ≠ 0 → cell.has_attr BG_OFFSET = true)

instance (w : Window) : Decidable (colorBitsSet w) := by
  unfold colorBitsSet; infer_instance

/-- A 1 x 1 state whose pending cell was produced by fill with a nonzero
foreground and a zero attribute mask, as Window.fill leaves it. -/
def cexTerm : Terminal :=
  { rows := 1, cols := 1, cursor_pos := (-1, -1),
    stdscr := { rows := 1, cols := 1, buf := [{ ch := ' ', fg := 1, bg := 0, attr := 0 }] },
    curscr := { rows := 1, cols := 1, buf := [defaultCell] } }

/-- A 1 x 1 state whose pending cell has its fg-is-set bit (bit 10) on,
differing from the shown cell. -/
def bitSetTerm : Terminal :=
  { rows := 1, cols := 1, cursor_pos := (-1, -1),
    stdscr := { rows := 1, cols := 1, buf := [{ ch := 'x', fg := 1, bg := 0, attr := 1024 }] },
    curscr := { rows := 1, cols := 1, buf := [defaultCell] } }

/-- A 1 x 2 state whose pending and shown grids differ in exactly the
second cell (same style, different glyph). -/
def diffTerm : Terminal :=
  { rows := 1, cols := 2, cursor_pos := (-1, -1),
    stdscr := { rows := 1, cols := 2,
                buf := [{ ch := 'a', fg := 0, bg := 0, attr := 0 },
                        { ch := 'b', fg := 0, bg := 0, attr := 0 }] },
    curscr := { rows := 1, cols := 2,
                buf := [{ ch := 'a', fg := 0, bg := 0, attr := 0 },
                        { ch := 'c', fg := 0, bg := 0, attr := 0 }] } }

/-
Parser lemmas: composition of runs, the parameter and intermediate
accumulation loops, and the behaviour of a single well-formed token.
-/

theorem runP_nil (s : PState) : runP s [] = ([], [], .ok s) := rfl

theorem runP_cons_ok (s : PState) (c : Nat) (cs : List Nat) (s' : PState)
    (out : Option Nat) (cb : Option (List Nat × List Nat))
    (h : feed s c = .ok (s', out, cb)) :
    runP s (c :: cs) =
      (out.toList ++ (runP s' cs).1, cb.toList ++ (runP s' cs).2.1, (runP s' cs).2.2) := by
  simp [runP, h]

theorem runP_append_ok : ∀ (xs : List Nat) (s s' : PState),
    (runP s xs).2.2 = .ok s' → ∀ ys : List Nat,
    runP s (xs ++ ys) =
      ((runP s xs).1 ++ (runP s' ys).1,
       (runP s xs).2.1 ++ (runP s' ys).2.1,
       (runP s' ys).2.2)
  | [], s, s', h, ys => by
      simp only [runP] at h
      injection h with h
      subst h
      simp [runP]
  | c :: cs, s, s', h, ys => by
      cases hf : feed s c with
      | error e =>
          simp only [runP, hf] at h
          exact Except.noConfusion h
      | ok v =>
          obtain ⟨s1, out, cb⟩ := v
          simp only [List.cons_append, runP, hf, List.append_eq] at h ⊢
          rw [runP_append_ok cs s1 s' h ys]
          simp

theorem runP_params_loop : ∀ (ps : List Nat), (∀ p ∈ ps, 48 ≤ p ∧ p < 64) →
    ∀ (acc : List Nat) (rest : List Nat),
    runP (.inParams acc) (ps ++ rest) = runP (.inParams (acc ++ ps)) rest
  | [], _, acc, rest => by simp
  | p :: ps', h, acc, rest => by
      have hp := h p (by simp)
      have hf : feed (.inParams acc) p = .ok (.inParams (acc ++ [p]), none, none) := by
        simp [feed, hp]
      rw [List.cons_append, runP_cons_ok _ p _ _ _ _ hf,
          runP_params_loop ps' (fun q hq => h q (by simp [hq])) (acc ++ [p]) rest]
      simp

theorem runP_inter_loop : ∀ (cd : List Nat), (∀ i ∈ cd, 32 ≤ i ∧ i < 48) →
    ∀ (ps acc : List Nat) (rest : List Nat),
    runP (.inInter ps acc) (cd ++ rest) = runP (.inInter ps (acc ++ cd)) rest
  | [], _, ps, acc, rest => by simp
  | i :: cd', h, ps, acc, rest => by
      have hi := h i (by simp)
      have hf : feed (.inInter ps acc) i = .ok (.inInter ps (acc ++ [i]), none, none) := by
        simp [feed, hi]
      rw [List.cons_append, runP_cons_ok _ i _ _ _ _ hf,
          runP_inter_loop cd' (fun q hq => h q (by simp [hq])) ps (acc ++ [i]) rest]
      simp

theorem runP_tok (t : Tok) (h : t.wf) :
    runP .normal t.bytes = (t.plainOut, t.cbOut, .ok .normal) := by
  cases t with
  | plain c =>
      have hc : ¬ c = ESC := h
      simp [Tok.bytes, Tok.plainOut, Tok.cbOut, runP, feed, hc]
  | csi ps cd f =>
      obtain ⟨hps, hcd, hf1, hf2⟩ := h
      have h27 : feed .normal ESC = .ok (.sawEsc, none, none) := by simp [feed]
      have h91 : feed .sawEsc LBRACKET = .ok (.inParams [], none, none) := by
        simp [feed]
      rw [Tok.bytes, runP_cons_ok _ ESC _ _ _ _ h27, runP_cons_ok _ LBRACKET _ _ _ _ h91,
          runP_params_loop ps hps [] (cd ++ [f])]
      simp only [List.nil_append]
      have hfin : ∀ acc, feed (.inParams acc) f = .ok (.normal, none, some (acc, [f])) := by
        intro acc
        have hn1 : ¬ (48 ≤ f ∧ f < 64) := by omega
        have hn2 : ¬ (32 ≤ f ∧ f < 48) := by omega
        simp [feed, hn1, hn2]
      cases cd with
      | nil =>
          simp only [List.nil_append]
          rw [runP_cons_ok _ f _ _ _ _ (hfin ps)]
          simp [Tok.plainOut, Tok.cbOut, runP]
      | cons i cd' =>
          have hi := hcd i (by simp)
          have hstep : feed (.inParams ps) i = .ok (.inInter ps [i], none, none) := by
            have hni : ¬ (48 ≤ i ∧ i < 64) := by omega
            simp [feed, hni, hi]
          rw [List.cons_append, runP_cons_ok _ i _ _ _ _ hstep,
              runP_inter_loop cd' (fun q hq => hcd q (by simp [hq])) ps [i] [f]]
          have hfin2 : feed (.inInter ps ([i] ++ cd')) f =
              .ok (.normal, none, some (ps, ([i] ++ cd') ++ [f])) := by
            have hn2 : ¬ (32 ≤ f ∧ f < 48) := by omega
            simp [feed, hn2]
          rw [runP_cons_ok _ f _ _ _ _ hfin2]
          simp [Tok.plainOut, Tok.cbOut, runP]

theorem runP_tokens (ts : List Tok) (h : ∀ t ∈ ts, t.wf) :
    runP .normal (ts.flatMap Tok.bytes) = (plainsOf ts, cbsOf ts, .ok .normal) := by
  induction ts with
  | nil => simp [plainsOf, cbsOf, runP]
  | cons t ts' ih =>
      have ht := runP_tok t (h t (by simp))
      have ih' := ih (fun q hq => h q (by simp [hq]))
      rw [List.flatMap_cons,
          runP_append_ok t.bytes .normal .normal (by rw [ht]) (ts'.flatMap Tok.bytes),
          ht, ih']
      simp [plainsOf, cbsOf]

/-- C1: for any stream of plain characters interleaved with well-formed
CSI sequences, feeding it character by character through the parser
emits exactly the plain characters in original order, invokes the
completion callback once per CSI sequence with its exact parameter
string and its intermediate bytes concatenated with the final byte, in
stream order, emits no byte of any CSI sequence as a plain character,
and ends back in the normal state. -/
theorem claim1_parser_roundtrip (ts : List Tok) (h : ∀ t ∈ ts, t.wf) :
    runP .normal (ts.flatMap Tok.bytes) = (plainsOf ts, cbsOf ts, .ok .normal) :=
  runP_tokens ts h

/-- C1 witness: the stream "A" ESC [ 6 ; 1 0 R "B" yields plain
characters A, B and one callback ("6;10", "R"). -/
theorem claim1_parser_roundtrip_witness :
    (∀ t ∈ [Tok.plain 65, Tok.csi [54, 59, 49, 48] [] 82, Tok.plain 66], t.wf) ∧
    runP .normal [65, ESC, LBRACKET, 54, 59, 49, 48, 82, 66] =
      ([65, 66], [([54, 59, 49, 48], [82])], .ok .normal) :=
  ⟨by decide, claim1_parser_roundtrip [Tok.plain 65, Tok.csi [54, 59, 49, 48] [] 82, Tok.plain 66]
    (by decide)⟩

/-- C2: feeding ESC followed by any character other than the left
bracket raises the unsupported-escape error carrying the nibbles of the
offending byte, emits nothing and invokes no callback. -/
theorem claim2_malformed_escape (b : Nat) (h : b ≠ LBRACKET) :
    runP .normal [ESC, b] = ([], [], .error (b >>> 4, b &&& 15)) := by
  have h27 : feed .normal ESC = .ok (.sawEsc, none, none) := by simp [feed]
  have herr : feed .sawEsc b = .error (b >>> 4, b &&& 15) := by simp [feed, h]
  rw [runP_cons_ok _ ESC _ _ _ _ h27]
  simp [runP, herr]

/-- C2 witness: ESC followed by the letter A (0x41) errors with nibbles
04/01 and no emission or callback. -/
theorem claim2_malformed_escape_witness :
    runP .normal [ESC, 65] = ([], [], .error (4, 1)) := by
  have h := claim2_malformed_escape 65 (by decide)
  simpa using h

/-- C6: the specification states that the tracked cursor is 1-indexed
and that a glyph write at column c < cols advances to (row, c + 1),
wrapping to column 1 of the next row exactly at column cols.  The code
of increment_cursor instead wraps when the advanced column equals cols
(one column early) and wraps to column 0: with cols = 3 and a write at
column 2 the tracked position becomes (2, 0) rather than (1, 3), and a
write at the true last column 3 yields (1, 4) with no wrap rather than
(2, 1). -/
theorem claim6_increment_cursor_offbyone :
    increment_cursor 3 (1, 2) = (2, 0) ∧ increment_cursor 3 (1, 2) ≠ (1, 3) ∧
    increment_cursor 3 (1, 3) = (1, 4) ∧ increment_cursor 3 (1, 3) ≠ (2, 1) := by
  decide

/-- C7 counterexample: read with no count does not leave the buffer
empty.  Python slicing with n = None makes buf[:None] the returned
whole string and buf[None:] — the reassigned buffer — the whole string
as well, so read() returns both characters of a two-character buffer
yet leaves both of them buffered. -/
theorem claim7_read_none_keeps_buffer :
    (InputWrapper.read ['a', 'b'] none).1 = ['a', 'b'] ∧
    (InputWrapper.read ['a', 'b'] none).2 = ['a', 'b'] ∧
    (InputWrapper.read ['a', 'b'] none).2 ≠ [] := by decide

/-- C7 amended: read(some n) removes exactly the first min(n, length)
buffered characters and returns them, leaving precisely the rest; read
with n unspecified returns all buffered characters but removes nothing,
leaving the buffer unchanged rather than empty. -/
theorem claim7_read_buffer (s : List Char) (n : Nat) :
    (InputWrapper.read s (some n)).1 = s.take n ∧
    (InputWrapper.read s (some n)).1.length = min n s.length ∧
    (InputWrapper.read s (some n)).1 ++ (InputWrapper.read s (some n)).2 = s ∧
    (InputWrapper.read s (some n)).2 = s.drop n ∧
    InputWrapper.read s none = (s, s) := by
  exact ⟨rfl, List.length_take n s, List.take_append_drop n s, rfl, rfl⟩

/-- C8: the specification states that a dispatched cursor-position
report with an absent (empty) parameter string resolves the query to
the defaults (1, 1) without raising.  In the code, handle_escape splits
the empty string into one empty field and int('') raises a ValueError,
so the defaults of cpr_callback are never reached: dispatching code R
with empty parameters errors, while well-formed parameters "6;10"
resolve to (6, 10) and a single parameter "5" resolves to (5, 1). -/
theorem claim8_cpr_empty_params_raises :
    handle_escape none [] ['R'] = .error () ∧
    handle_escape none ['6', ';', '1', '0'] ['R'] = .ok (some (6, 10)) ∧
    handle_escape none ['5'] ['R'] = .ok (some (5, 1)) :=
  ⟨rfl, rfl, rfl⟩

/-- C5: move_cursor clamps the target row into [1, rows] and column
into [1, cols]; when both deltas from the tracked position are nonzero
it emits exactly one absolute cursor-position escape, when exactly one
delta is nonzero it emits exactly one relative escape (down, up, right
or left) whose parameter is the magnitude of that delta, when both are
zero it emits nothing; and the tracked position always becomes the
clamped target. -/
theorem claim5_move_cursor_policy (rows cols : Nat) (pos : Int × Int) (row col : Int)
    (hr : 1 ≤ rows) (hc : 1 ≤ cols) :
    (1 ≤ min (max row 1) (rows : Int) ∧ min (max row 1) (rows : Int) ≤ (rows : Int)) ∧
    (1 ≤ min (max col 1) (cols : Int) ∧ min (max col 1) (cols : Int) ≤ (cols : Int)) ∧
    (move_cursor rows cols pos row col).1 =
      (min (max row 1) (rows : Int), min (max col 1) (cols : Int)) ∧
    (min (max row 1) (rows : Int) - pos.1 ≠ 0 → min (max col 1) (cols : Int) - pos.2 ≠ 0 →
      (move_cursor rows cols pos row col).2 =
        [Item.esc CURSOR_POS [min (max row 1) (rows : Int), min (max col 1) (cols : Int)]]) ∧
    (min (max row 1) (rows : Int) - pos.1 > 0 → min (max col 1) (cols : Int) - pos.2 = 0 →
      (move_cursor rows cols pos row col).2 =
        [Item.esc CURSOR_DOWN [min (max row 1) (rows : Int) - pos.1]]) ∧
    (min (max row 1) (rows : Int) - pos.1 < 0 → min (max col 1) (cols : Int) - pos.2 = 0 →
      (move_cursor rows cols pos row col).2 =
        [Item.esc CURSOR_UP [-(min (max row 1) (rows : Int) - pos.1)]]) ∧
    (min (max row 1) (rows : Int) - pos.1 = 0 → min (max col 1) (cols : Int) - pos.2 > 0 →
      (move_cursor rows cols pos row col).2 =
        [Item.esc CURSOR_RIGHT [min (max col 1) (cols : Int) - pos.2]]) ∧
    (min (max row 1) (rows : Int) - pos.1 = 0 → min (max col 1) (cols : Int) - pos.2 < 0 →
      (move_cursor rows cols pos row col).2 =
        [Item.esc CURSOR_LEFT [-(min (max col 1) (cols : Int) - pos.2)]]) ∧
    (min (max row 1) (rows : Int) - pos.1 = 0 → min (max col 1) (cols : Int) - pos.2 = 0 →
      (move_cursor rows cols pos row col).2 = []) := by
  have hb1 : 1 ≤ min (max row 1) (rows : Int) ∧ min (max row 1) (rows : Int) ≤ (rows : Int) :=
    ⟨le_min (le_max_right _ _) (by exact_mod_cast hr), min_le_right _ _⟩
  have hb2 : 1 ≤ min (max col 1) (cols : Int) ∧ min (max col 1) (cols : Int) ≤ (cols : Int) :=
    ⟨le_min (le_max_right _ _) (by exact_mod_cast hc), min_le_right _ _⟩
  refine ⟨hb1, hb2, rfl, ?_, ?_, ?_, ?_, ?_, ?_⟩
  · intro h1 h2
    simp only [move_cursor]
    rw [if_pos ⟨h1, h2⟩]
  · intro h1 h2
    simp only [move_cursor]
    rw [if_neg (fun hand => hand.2 h2), if_pos h1]
  · intro h1 h2
    simp only [move_cursor]
    set r2 := min (max row 1) (rows : Int)
    set c2 := min (max col 1) (cols : Int)
    rw [if_neg (fun hand => hand.2 h2), if_neg (by omega), if_pos h1]
  · intro h1 h2
    simp only [move_cursor]
    set r2 := min (max row 1) (rows : Int)
    set c2 := min (max col 1) (cols : Int)
    rw [if_neg (fun hand => hand.1 h1), if_neg (by omega), if_neg (by omega), if_pos h2]
  · intro h1 h2
    simp only [move_cursor]
    set r2 := min (max row 1) (rows : Int)
    set c2 := min (max col 1) (cols : Int)
    rw [if_neg (fun hand => hand.1 h1), if_neg (by omega), if_neg (by omega),
        if_neg (by omega), if_pos h2]
  · intro h1 h2
    simp only [move_cursor]
    set r2 := min (max row 1) (rows : Int)
    set c2 := min (max col 1) (cols : Int)
    rw [if_neg (fun hand => hand.1 h1), if_neg (by omega), if_neg (by omega),
        if_neg (by omega), if_neg (by omega)]

/-- C5 witness: on a 3 x 4 terminal with tracked position (1, 1),
moving to (2, 1) has row delta 1 and column delta 0 and emits exactly
one relative down escape with parameter 1. -/
theorem claim5_move_cursor_policy_witness :
    (1 ≤ 3 ∧ 1 ≤ 4) ∧ (move_cursor 3 4 (1, 1) 2 1).2 = [Item.esc CURSOR_DOWN [1]] :=
  ⟨⟨by decide, by decide⟩,
   (claim5_move_cursor_policy 3 4 (1, 1) 2 1 (by decide) (by decide)).2.2.2.2.1
     (by decide) (by decide)⟩

/-
Bitmask and list helper lemmas.
-/

theorem or_shift_of_testBit (a k : Nat) (h : a.testBit k = true) : a ||| (1 <<< k) = a := by
  apply Nat.eq_of_testBit_eq
  intro i
  rw [Nat.testBit_or, Nat.shiftLeft_eq, one_mul, Nat.testBit_two_pow]
  rcases eq_or_ne k i with rfl | hne
  · simp [h]
  · simp [hne]

theorem has_attr_eq (cell : Cell) (a : Nat) :
    cell.has_attr a = cell.attr.testBit (attr_index a) := by
  cases hb : cell.attr.testBit (attr_index a) <;>
    simp [Cell.has_attr, Nat.shiftLeft_eq, Nat.and_two_pow, hb, Nat.pos_iff_ne_zero,
      Nat.pow_eq_zero]

theorem attr_index_FG : attr_index FG_OFFSET = 10 := by decide

theorem attr_index_BG : attr_index BG_OFFSET = 11 := by decide

theorem forceColorBits_fg_bit (cell : Cell) (h : cell.fg ≠ 0) :
    (forceColorBits cell).has_attr FG_OFFSET = true := by
  rw [has_attr_eq]
  unfold forceColorBits
  rcases eq_or_ne cell.bg 0 with h2 | h2
  · simp only [h, h2, attr_index_FG, attr_index_BG, Nat.testBit_or, ne_eq,
      not_true_eq_false, if_false, if_true, not_false_eq_true, Bool.or_eq_true]
    exact Or.inr (by decide)
  · simp only [h, h2, attr_index_FG, attr_index_BG, Nat.testBit_or, ne_eq,
      not_true_eq_false, if_false, if_true, not_false_eq_true, Bool.or_eq_true]
    exact Or.inl (Or.inr (by decide))

theorem forceColorBits_bg_bit (cell : Cell) (h : cell.bg ≠ 0) :
    (forceColorBits cell).has_attr BG_OFFSET = true := by
  rw [has_attr_eq]
  unfold forceColorBits
  rcases eq_or_ne cell.fg 0 with h1 | h1 <;>
  · simp only [h, h1, attr_index_FG, attr_index_BG, Nat.testBit_or, ne_eq,
      not_true_eq_false, if_false, if_true, not_false_eq_true, Bool.or_eq_true]
    exact Or.inr (by decide)

theorem forceColorBits_eq_self (cell : Cell)
    (hf : cell.fg ≠ 0 → cell.has_attr FG_OFFSET = true)
    (hb : cell.bg ≠ 0 → cell.has_attr BG_OFFSET = true) :
    forceColorBits cell = cell := by
  have hfg : cell.fg ≠ 0 → cell.attr ||| (1 <<< attr_index FG_OFFSET) = cell.attr := by
    intro h
    have hx := hf h
    rw [has_attr_eq] at hx
    exact or_shift_of_testBit _ _ hx
  have hbg : cell.bg ≠ 0 → cell.attr ||| (1 <<< attr_index BG_OFFSET) = cell.attr := by
    intro h
    have hx := hb h
    rw [has_attr_eq] at hx
    exact or_shift_of_testBit _ _ hx
  obtain ⟨ch, fg, bg, attr⟩ := cell
  unfold forceColorBits
  rcases eq_or_ne fg 0 with h1 | h1 <;> rcases eq_or_ne bg 0 with h2 | h2 <;>
    simp_all

theorem list_set_getD_self {α : Type} : ∀ (l : List α) (n : Nat) (d : α),
    l.set n (l.getD n d) = l
  | [], _, _ => rfl
  | _ :: _, 0, _ => rfl
  | a :: l, n + 1, d => by
      simp only [List.getD_cons_succ, List.set_cons_succ]
      rw [list_set_getD_self l n d]

theorem list_getD_mem_or {α : Type} : ∀ (l : List α) (n : Nat) (d : α),
    l.getD n d ∈ l ∨ l.getD n d = d
  | [], _, _ => Or.inr rfl
  | a :: l, 0, d => Or.inl (by simp)
  | a :: l, n + 1, d => by
      rcases list_getD_mem_or l n d with h | h
      · exact Or.inl (by simp only [List.getD_cons_succ]; exact List.mem_cons_of_mem a h)
      · exact Or.inr (by simp only [List.getD_cons_succ]; exact h)

theorem list_getD_set_ne {α : Type} (l : List α) (i j : Nat) (x d : α) (h : i ≠ j) :
    (l.set i x).getD j d = l.getD j d := by
  simp [List.getD_eq_getElem?_getD, List.getElem?_set_ne h]

theorem list_getD_set_self {α : Type} (l : List α) (i : Nat) (x d : α) (h : i < l.length) :
    (l.set i x).getD i d = x := by
  simp [List.getD_eq_getElem?_getD, List.getElem?_set_self h]

/-
C10 and C9: effects of refresh and of the Window mutation operations on
the colour is-set bits.
-/

theorem refreshCell_stdscr_preserved (t : Terminal) (r c : Nat) (h : colorBitsSet t.stdscr) :
    (refreshCell t r c).1.stdscr = t.stdscr := by
  rcases eq_or_ne (t.stdscr.getcell r c) (t.curscr.getcell r c) with he | hne
  · simp only [refreshCell, he, if_true]
  · have hF : forceColorBits (t.stdscr.getcell r c) = t.stdscr.getcell r c := by
      rcases list_getD_mem_or t.stdscr.buf (r * t.stdscr.cols + c) defaultCell with hm | hd
      · exact forceColorBits_eq_self _ (h _ hm).1 (h _ hm).2
      · rw [Window.getcell, hd]
        rfl
    simp only [refreshCell]
    rw [if_neg hne]
    show t.stdscr.setcell r c (t.stdscr.getcell r c) = t.stdscr
    rw [Window.setcell, hF, Window.getcell, list_set_getD_self]

theorem refreshGo_stdscr_preserved : ∀ (L : List (Nat × Nat)) (t : Terminal),
    colorBitsSet t.stdscr → (refreshGo t L).1.stdscr = t.stdscr
  | [], _, _ => rfl
  | rc :: rest, t, h => by
      have h1 := refreshCell_stdscr_preserved t rc.1 rc.2 h
      have h2 := refreshGo_stdscr_preserved rest (refreshCell t rc.1 rc.2).1 (by rw [h1]; exact h)
      simp only [refreshGo]
      rw [h2, h1]

/-- C10 counterexample: refresh does modify the pending grid.  When the
pending cell was produced by fill with a nonzero foreground and a zero
attribute mask, the shown-grid update inside refresh forces the
fg-is-set bit through the shared ctypes cell storage back into the
pending grid, so pending differs after refresh. -/
theorem claim10_refresh_mutates_pending :
    (refresh cexTerm).1.stdscr ≠ cexTerm.stdscr := by decide

/-- C10 amended: refresh never modifies the pending grid provided every
pending cell with a nonzero foreground (background) already has its
fg-is-set (bg-is-set) attribute bit on — as is the case for every cell
stored through indexed assignment; in general refresh may force exactly
those derived bits on changed pending cells with nonzero colours. -/
theorem claim10_refresh_preserves_pending (t : Terminal) (h : colorBitsSet t.stdscr) :
    (refresh t).1.stdscr = t.stdscr :=
  refreshGo_stdscr_preserved (cells t.rows t.cols) t h

/-- C10 witness: on a consistent pending grid, refresh rewrites the one
changed cell yet leaves the pending grid untouched. -/
theorem claim10_refresh_preserves_pending_witness :
    colorBitsSet bitSetTerm.stdscr ∧ (refresh bitSetTerm).1.stdscr = bitSetTerm.stdscr :=
  ⟨by decide, claim10_refresh_preserves_pending bitSetTerm (by decide)⟩

/-- C9 counterexample: fill does not force the colour is-set bits.
Filling a window with foreground 1 and attribute mask 0 stores a cell
whose foreground is nonzero but whose fg-is-set bit is off. -/
theorem claim9_fill_leaves_bits_unset :
    (((Window.new 1 1 ' ' 0 0 0).fill ' ' 1 0 0).getcell 0 0).fg = 1 ∧
    (((Window.new 1 1 ' ' 0 0 0).fill ' ' 1 0 0).getcell 0 0).has_attr FG_OFFSET = false := by
  decide

/-- C9 amended: indexed cell assignment forces the derived bits — after
a setcell, the stored cell has its fg-is-set bit on whenever its
foreground is nonzero and its bg-is-set bit on whenever its background
is nonzero — while fill stores the attribute mask exactly as given,
leaving the bits to the caller. -/
theorem claim9_setitem_forces_bits (w : Window) (r c : Nat) (cell : Cell)
    (h : r * w.cols + c < w.buf.length) :
    (((w.setcell r c cell).getcell r c).fg ≠ 0 →
      ((w.setcell r c cell).getcell r c).has_attr FG_OFFSET = true) ∧
    (((w.setcell r c cell).getcell r c).bg ≠ 0 →
      ((w.setcell r c cell).getcell r c).has_attr BG_OFFSET = true) ∧
    (∀ (ch : Char) (fg bg a : Nat), ∀ cl ∈ (w.fill ch fg bg a).buf, cl.attr = a) := by
  have hg : (w.setcell r c cell).getcell r c = forceColorBits cell := by
    rw [Window.setcell, Window.getcell]
    exact list_getD_set_self _ _ _ _ h
  refine ⟨?_, ?_, ?_⟩
  · rw [hg]
    intro hfg
    exact forceColorBits_fg_bit cell hfg
  · rw [hg]
    intro hbg
    exact forceColorBits_bg_bit cell hbg
  · intro ch fg bg a cl hcl
    rw [Window.fill] at hcl
    simp only [List.mem_map] at hcl
    obtain ⟨_, _, hcl⟩ := hcl
    rw [← hcl]

/-- C9 witness: storing a cell with foreground 5 and background 7 and a
zero mask through indexed assignment turns both derived bits on, and
fill keeps a given mask verbatim. -/
theorem claim9_setitem_forces_bits_witness :
    0 * 2 + 0 < ((Window.new 2 2 ' ' 0 0 0).buf.length) ∧
    (((Window.new 2 2 ' ' 0 0 0).setcell 0 0 { ch := 'x', fg := 5, bg := 7, attr := 0 }).getcell 0 0).has_attr FG_OFFSET = true ∧
    (((Window.new 2 2 ' ' 0 0 0).setcell 0 0 { ch := 'x', fg := 5, bg := 7, attr := 0 }).getcell 0 0).has_attr BG_OFFSET = true :=
  ⟨by decide,
   (claim9_setitem_forces_bits (Window.new 2 2 ' ' 0 0 0) 0 0
      { ch := 'x', fg := 5, bg := 7, attr := 0 } (by decide)).1 (by decide),
   (claim9_setitem_forces_bits (Window.new 2 2 ' ' 0 0 0) 0 0
      { ch := 'x', fg := 5, bg := 7, attr := 0 } (by decide)).2.1 (by decide)⟩

/-
Refresh-loop lemmas for the diff claims.
-/

theorem refreshCell_of_eq (t : Terminal) (r c : Nat)
    (he : t.stdscr.getcell r c = t.curscr.getcell r c) :
    refreshCell t r c = (t, []) := by
  simp only [refreshCell, he, if_true]

theorem refreshCell_of_ne (t : Terminal) (r c : Nat)
    (hne : t.stdscr.getcell r c ≠ t.curscr.getcell r c) :
    refreshCell t r c =
      ({ t with
          cursor_pos := increment_cursor t.cols
            (if t.cursor_pos ≠ ((r : Int) + 1, (c : Int) + 1)
             then move_cursor t.rows t.cols t.cursor_pos ((r : Int) + 1) ((c : Int) + 1)
             else (t.cursor_pos, [])).1,
          stdscr := t.stdscr.setcell r c (t.stdscr.getcell r c),
          curscr := t.curscr.setcell r c (t.stdscr.getcell r c) },
       (if t.cursor_pos ≠ ((r : Int) + 1, (c : Int) + 1)
        then move_cursor t.rows t.cols t.cursor_pos ((r : Int) + 1) ((c : Int) + 1)
        else (t.cursor_pos, [])).2 ++
       ((if Cell.attr_changed (t.stdscr.getcell r c) (t.curscr.getcell r c) = true
         then [Item.esc SGR (sgr_args (t.stdscr.getcell r c) (t.curscr.getcell r c))]
         else []) ++
        [Item.glyph (t.stdscr.getcell r c).ch])) := by
  simp only [refreshCell]
  rw [if_neg hne]

theorem refreshCell_dims (t : Terminal) (r c : Nat) :
    (refreshCell t r c).1.rows = t.rows ∧ (refreshCell t r c).1.cols = t.cols ∧
    (refreshCell t r c).1.stdscr.cols = t.stdscr.cols ∧
    (refreshCell t r c).1.curscr.cols = t.curscr.cols ∧
    (refreshCell t r c).1.stdscr.buf.length = t.stdscr.buf.length ∧
    (refreshCell t r c).1.curscr.buf.length = t.curscr.buf.length := by
  rcases eq_or_ne (t.stdscr.getcell r c) (t.curscr.getcell r c) with he | hne
  · rw [refreshCell_of_eq t r c he]
    exact ⟨rfl, rfl, rfl, rfl, rfl, rfl⟩
  · rw [refreshCell_of_ne t r c hne]
    refine ⟨rfl, rfl, rfl, rfl, ?_, ?_⟩ <;> simp [Window.setcell]

theorem refreshCell_getcell_ne (t : Terminal) (r c r' c' : Nat)
    (hs : r * t.stdscr.cols + c ≠ r' * t.stdscr.cols + c')
    (hc : r * t.curscr.cols + c ≠ r' * t.curscr.cols + c') :
    (refreshCell t r c).1.stdscr.getcell r' c' = t.stdscr.getcell r' c' ∧
    (refreshCell t r c).1.curscr.getcell r' c' = t.curscr.getcell r' c' := by
  rcases eq_or_ne (t.stdscr.getcell r c) (t.curscr.getcell r c) with he | hne
  · rw [refreshCell_of_eq t r c he]
    exact ⟨rfl, rfl⟩
  · rw [refreshCell_of_ne t r c hne]
    constructor
    · show (t.stdscr.setcell r c _).getcell r' c' = t.stdscr.getcell r' c'
      rw [Window.setcell, Window.getcell, Window.getcell]
      exact list_getD_set_ne _ _ _ _ _ hs
    · show (t.curscr.setcell r c _).getcell r' c' = t.curscr.getcell r' c'
      rw [Window.setcell, Window.getcell, Window.getcell]
      exact list_getD_set_ne _ _ _ _ _ hc

theorem refreshCell_agree (t : Terminal) (r c : Nat)
    (hsl : r * t.stdscr.cols + c < t.stdscr.buf.length)
    (hcl : r * t.curscr.cols + c < t.curscr.buf.length) :
    (refreshCell t r c).1.stdscr.getcell r c = (refreshCell t r c).1.curscr.getcell r c := by
  rcases eq_or_ne (t.stdscr.getcell r c) (t.curscr.getcell r c) with he | hne
  · rw [refreshCell_of_eq t r c he]
    exact he
  · rw [refreshCell_of_ne t r c hne]
    show (t.stdscr.buf.set (r * t.stdscr.cols + c) (forceColorBits (t.stdscr.getcell r c))).getD
        (r * t.stdscr.cols + c) defaultCell =
      (t.curscr.buf.set (r * t.curscr.cols + c) (forceColorBits (t.stdscr.getcell r c))).getD
        (r * t.curscr.cols + c) defaultCell
    rw [list_getD_set_self _ _ _ _ hsl, list_getD_set_self _ _ _ _ hcl]

theorem isMoveEsc_up (ps : List Int) : isMoveEsc (Item.esc CURSOR_UP ps) = true := rfl
theorem isMoveEsc_down (ps : List Int) : isMoveEsc (Item.esc CURSOR_DOWN ps) = true := rfl
theorem isMoveEsc_right (ps : List Int) : isMoveEsc (Item.esc CURSOR_RIGHT ps) = true := rfl
theorem isMoveEsc_left (ps : List Int) : isMoveEsc (Item.esc CURSOR_LEFT ps) = true := rfl
theorem isMoveEsc_pos (ps : List Int) : isMoveEsc (Item.esc CURSOR_POS ps) = true := rfl
theorem isMoveEsc_sgr (ps : List Int) : isMoveEsc (Item.esc SGR ps) = false := rfl
theorem isMoveEsc_glyph (ch : Char) : isMoveEsc (Item.glyph ch) = false := rfl
theorem isSgrEsc_up (ps : List Int) : isSgrEsc (Item.esc CURSOR_UP ps) = false := rfl
theorem isSgrEsc_down (ps : List Int) : isSgrEsc (Item.esc CURSOR_DOWN ps) = false := rfl
theorem isSgrEsc_right (ps : List Int) : isSgrEsc (Item.esc CURSOR_RIGHT ps) = false := rfl
theorem isSgrEsc_left (ps : List Int) : isSgrEsc (Item.esc CURSOR_LEFT ps) = false := rfl
theorem isSgrEsc_pos (ps : List Int) : isSgrEsc (Item.esc CURSOR_POS ps) = false := rfl
theorem isSgrEsc_sgr (ps : List Int) : isSgrEsc (Item.esc SGR ps) = true := rfl
theorem isSgrEsc_glyph (ch : Char) : isSgrEsc (Item.glyph ch) = false := rfl
theorem isGlyphW_esc (c : Char) (ps : List Int) : isGlyphW (Item.esc c ps) = false := rfl
theorem isGlyphW_glyph (ch : Char) : isGlyphW (Item.glyph ch) = true := rfl

theorem move_cursor_out_counts (rows cols : Nat) (pos : Int × Int) (row col : Int) :
    (move_cursor rows cols pos row col).2.countP isMoveEsc ≤ 1 ∧
    (move_cursor rows cols pos row col).2.countP isSgrEsc = 0 ∧
    (move_cursor rows cols pos row col).2.countP isGlyphW = 0 := by
  simp only [move_cursor]
  split_ifs <;>
    simp [List.countP_cons, isMoveEsc_up, isMoveEsc_down, isMoveEsc_right, isMoveEsc_left,
      isMoveEsc_pos, isSgrEsc_up, isSgrEsc_down, isSgrEsc_right, isSgrEsc_left, isSgrEsc_pos,
      isGlyphW_esc]

theorem refreshCell_out_counts (t : Terminal) (r c : Nat)
    (hne : t.stdscr.getcell r c ≠ t.curscr.getcell r c) :
    (refreshCell t r c).2.countP isMoveEsc ≤ 1 ∧
    (refreshCell t r c).2.countP isSgrEsc ≤ 1 ∧
    (refreshCell t r c).2.countP isGlyphW = 1 := by
  rw [refreshCell_of_ne t r c hne]
  have hm := move_cursor_out_counts t.rows t.cols t.cursor_pos ((r : Int) + 1) ((c : Int) + 1)
  by_cases hcur : t.cursor_pos ≠ ((r : Int) + 1, (c : Int) + 1) <;>
    by_cases hat : Cell.attr_changed (t.stdscr.getcell r c) (t.curscr.getcell r c) = true
  · rw [if_pos hcur, if_pos hat]
    refine ⟨?_, ?_, ?_⟩ <;>
      simp [List.countP_append, List.countP_cons, isMoveEsc_sgr, isMoveEsc_glyph,
        isSgrEsc_sgr, isSgrEsc_glyph, isGlyphW_esc, isGlyphW_glyph, hm.1, hm.2.1, hm.2.2]
  · rw [if_pos hcur, if_neg hat]
    refine ⟨?_, ?_, ?_⟩ <;>
      simp [List.countP_append, List.countP_cons, isMoveEsc_glyph, isSgrEsc_glyph,
        isGlyphW_glyph, hm.1, hm.2.1, hm.2.2]
  · rw [if_neg hcur, if_pos hat]
    refine ⟨?_, ?_, ?_⟩ <;>
      simp [List.countP_append, List.countP_cons, isMoveEsc_sgr, isMoveEsc_glyph,
        isSgrEsc_sgr, isSgrEsc_glyph, isGlyphW_esc, isGlyphW_glyph]
  · rw [if_neg hcur, if_neg hat]
    refine ⟨?_, ?_, ?_⟩ <;>
      simp [List.countP_append, List.countP_cons, isMoveEsc_glyph, isSgrEsc_glyph,
        isGlyphW_glyph]

theorem refreshGo_of_all_eq : ∀ (L : List (Nat × Nat)) (t : Terminal),
    (∀ rc ∈ L, t.stdscr.getcell rc.1 rc.2 = t.curscr.getcell rc.1 rc.2) →
    refreshGo t L = (t, [])
  | [], _, _ => rfl
  | rc :: rest, t, h => by
      have h1 := refreshCell_of_eq t rc.1 rc.2 (h rc (List.mem_cons_self rc rest))
      have h2 := refreshGo_of_all_eq rest t (fun q hq => h q (List.mem_cons_of_mem rc hq))
      simp [refreshGo, h1, h2]

theorem refreshGo_dims : ∀ (L : List (Nat × Nat)) (t : Terminal),
    (refreshGo t L).1.rows = t.rows ∧ (refreshGo t L).1.cols = t.cols ∧
    (refreshGo t L).1.stdscr.cols = t.stdscr.cols ∧
    (refreshGo t L).1.curscr.cols = t.curscr.cols ∧
    (refreshGo t L).1.stdscr.buf.length = t.stdscr.buf.length ∧
    (refreshGo t L).1.curscr.buf.length = t.curscr.buf.length
  | [], _ => ⟨rfl, rfl, rfl, rfl, rfl, rfl⟩
  | rc :: rest, t => by
      have h1 := refreshCell_dims t rc.1 rc.2
      have h2 := refreshGo_dims rest (refreshCell t rc.1 rc.2).1
      simp only [refreshGo]
      exact ⟨h2.1.trans h1.1, h2.2.1.trans h1.2.1, h2.2.2.1.trans h1.2.2.1,
        h2.2.2.2.1.trans h1.2.2.2.1, h2.2.2.2.2.1.trans h1.2.2.2.2.1,
        h2.2.2.2.2.2.trans h1.2.2.2.2.2⟩

theorem refreshGo_getcell_preserved : ∀ (L : List (Nat × Nat)) (t : Terminal) (r' c' : Nat),
    (∀ rc ∈ L, rc.1 * t.stdscr.cols + rc.2 ≠ r' * t.stdscr.cols + c') →
    (∀ rc ∈ L, rc.1 * t.curscr.cols + rc.2 ≠ r' * t.curscr.cols + c') →
    (refreshGo t L).1.stdscr.getcell r' c' = t.stdscr.getcell r' c' ∧
    (refreshGo t L).1.curscr.getcell r' c' = t.curscr.getcell r' c'
  | [], _, _, _, _, _ => ⟨rfl, rfl⟩
  | rc :: rest, t, r', c', hs, hc => by
      have hd := refreshCell_dims t rc.1 rc.2
      have h1 := refreshCell_getcell_ne t rc.1 rc.2 r' c'
        (hs rc (List.mem_cons_self rc rest)) (hc rc (List.mem_cons_self rc rest))
      have h2 := refreshGo_getcell_preserved rest (refreshCell t rc.1 rc.2).1 r' c'
        (fun q hq => by
          rw [hd.2.2.1]
          exact hs q (List.mem_cons_of_mem rc hq))
        (fun q hq => by
          rw [hd.2.2.2.1]
          exact hc q (List.mem_cons_of_mem rc hq))
      simp only [refreshGo]
      exact ⟨h2.1.trans h1.1, h2.2.trans h1.2⟩

theorem refreshGo_agrees : ∀ (L : List (Nat × Nat)) (t : Terminal) (cols : Nat),
    t.stdscr.cols = cols → t.curscr.cols = cols →
    (∀ rc ∈ L, rc.1 * cols + rc.2 < t.stdscr.buf.length ∧
      rc.1 * cols + rc.2 < t.curscr.buf.length) →
    (L.map (fun rc => rc.1 * cols + rc.2)).Nodup →
    ∀ rc ∈ L, (refreshGo t L).1.stdscr.getcell rc.1 rc.2 =
      (refreshGo t L).1.curscr.getcell rc.1 rc.2
  | [], _, _, _, _, _, _ => by
      intro rc hrc
      exact absurd hrc (List.not_mem_nil rc)
  | rc0 :: rest, t, cols, hsc, hcc, hb, hnd => by
      have hd := refreshCell_dims t rc0.1 rc0.2
      have hnd' := List.nodup_cons.mp hnd
      have hsc1 : (refreshCell t rc0.1 rc0.2).1.stdscr.cols = cols := by rw [hd.2.2.1, hsc]
      have hcc1 : (refreshCell t rc0.1 rc0.2).1.curscr.cols = cols := by rw [hd.2.2.2.1, hcc]
      have hb1 : ∀ q ∈ rest, q.1 * cols + q.2 < (refreshCell t rc0.1 rc0.2).1.stdscr.buf.length ∧
          q.1 * cols + q.2 < (refreshCell t rc0.1 rc0.2).1.curscr.buf.length := by
        intro q hq
        rw [hd.2.2.2.2.1, hd.2.2.2.2.2]
        exact hb q (List.mem_cons_of_mem rc0 hq)
      have hIH := refreshGo_agrees rest (refreshCell t rc0.1 rc0.2).1 cols hsc1 hcc1 hb1 hnd'.2
      intro rc hrc
      simp only [refreshGo]
      rcases List.mem_cons.mp hrc with rfl | hrc'
      · have hagree : (refreshCell t rc.1 rc.2).1.stdscr.getcell rc.1 rc.2 =
            (refreshCell t rc.1 rc.2).1.curscr.getcell rc.1 rc.2 := by
          apply refreshCell_agree
          · rw [hsc]
            exact (hb rc (List.mem_cons_self rc rest)).1
          · rw [hcc]
            exact (hb rc (List.mem_cons_self rc rest)).2
        have hpres := refreshGo_getcell_preserved rest (refreshCell t rc.1 rc.2).1 rc.1 rc.2
          (fun q hq => by
            rw [hsc1]
            intro hbad
            exact hnd'.1 (List.mem_map.mpr ⟨q, hq, hbad⟩))
          (fun q hq => by
            rw [hcc1]
            intro hbad
            exact hnd'.1 (List.mem_map.mpr ⟨q, hq, hbad⟩))
        rw [hpres.1, hpres.2]
        exact hagree
      · exact hIH rc hrc'

theorem mem_cells (rows cols : Nat) (rc : Nat × Nat) :
    rc ∈ cells rows cols ↔ rc.1 < rows ∧ rc.2 < cols := by
  obtain ⟨r0, c0⟩ := rc
  constructor
  · intro h
    simp only [cells, List.mem_flatMap, List.mem_map, List.mem_range] at h
    obtain ⟨r, hr, c, hc, hrc⟩ := h
    cases hrc
    exact ⟨hr, hc⟩
  · rintro ⟨h1, h2⟩
    simp only [cells, List.mem_flatMap, List.mem_map, List.mem_range]
    exact ⟨r0, h1, c0, h2, rfl⟩

theorem cells_map_idx (rows cols : Nat) :
    (cells rows cols).map (fun rc => rc.1 * cols + rc.2) = List.range (rows * cols) := by
  induction rows with
  | zero => simp [cells]
  | succ n ih =>
      have hsplit : cells (n + 1) cols =
          cells n cols ++ (List.range cols).map (fun c => (n, c)) := by
        rw [cells, cells, List.range_succ, List.flatMap_append]
        simp
      rw [hsplit, List.map_append, ih, List.map_map, Nat.succ_mul, List.range_add]
      congr 1

theorem cells_idx_nodup (rows cols : Nat) :
    ((cells rows cols).map (fun rc => rc.1 * cols + rc.2)).Nodup := by
  rw [cells_map_idx]
  exact List.nodup_range _

theorem idx_lt {r c rows cols : Nat} (h1 : r < rows) (h2 : c < cols) :
    r * cols + c < rows * cols := by
  calc r * cols + c < r * cols + cols := by omega
  _ = (r + 1) * cols := by ring
  _ ≤ rows * cols := Nat.mul_le_mul_right cols h1

theorem refresh_snd_nil (t : Terminal)
    (hag : ∀ rc ∈ cells t.rows t.cols,
      t.stdscr.getcell rc.1 rc.2 = t.curscr.getcell rc.1 rc.2) :
    refresh t = (t, []) := by
  rw [refresh, refreshGo_of_all_eq _ _ hag]

theorem refreshGo_counts_one : ∀ (L : List (Nat × Nat)) (t : Terminal) (cols : Nat),
    t.stdscr.cols = cols → t.curscr.cols = cols →
    (L.map (fun rc => rc.1 * cols + rc.2)).Nodup →
    L.countP (fun rc => decide (t.stdscr.getcell rc.1 rc.2 ≠ t.curscr.getcell rc.1 rc.2)) = 1 →
    (refreshGo t L).2.countP isMoveEsc ≤ 1 ∧
    (refreshGo t L).2.countP isSgrEsc ≤ 1 ∧
    (refreshGo t L).2.countP isGlyphW = 1
  | [], t, cols, _, _, _, hcount => by
      simp at hcount
  | rc0 :: rest, t, cols, hsc, hcc, hnd, hcount => by
      have hnd' := List.nodup_cons.mp hnd
      rw [List.countP_cons] at hcount
      by_cases hdiff : t.stdscr.getcell rc0.1 rc0.2 = t.curscr.getcell rc0.1 rc0.2
      · have hp : decide (t.stdscr.getcell rc0.1 rc0.2 ≠ t.curscr.getcell rc0.1 rc0.2)
            = false := by
          simp [hdiff]
        rw [hp, if_neg Bool.false_ne_true, Nat.add_zero] at hcount
        have hc' : rest.countP
            (fun rc => decide (t.stdscr.getcell rc.1 rc.2 ≠ t.curscr.getcell rc.1 rc.2)) = 1 :=
          hcount
        have hIH := refreshGo_counts_one rest t cols hsc hcc hnd'.2 hc'
        simp only [refreshGo, refreshCell_of_eq t rc0.1 rc0.2 hdiff]
        simpa using hIH
      · have hp : decide (t.stdscr.getcell rc0.1 rc0.2 ≠ t.curscr.getcell rc0.1 rc0.2)
            = true := by
          simp [hdiff]
        rw [hp, if_pos rfl] at hcount
        have hrest0 : rest.countP
            (fun rc => decide (t.stdscr.getcell rc.1 rc.2 ≠ t.curscr.getcell rc.1 rc.2)) = 0 := by
          omega
        rw [List.countP_eq_zero] at hrest0
        have hagree1 : ∀ q ∈ rest,
            (refreshCell t rc0.1 rc0.2).1.stdscr.getcell q.1 q.2 =
            (refreshCell t rc0.1 rc0.2).1.curscr.getcell q.1 q.2 := by
          intro q hq
          have hqe : t.stdscr.getcell q.1 q.2 = t.curscr.getcell q.1 q.2 := by
            have := hrest0 q hq
            simpa using this
          have hids : rc0.1 * t.stdscr.cols + rc0.2 ≠ q.1 * t.stdscr.cols + q.2 := by
            rw [hsc]
            intro hbad
            exact hnd'.1 (List.mem_map.mpr ⟨q, hq, hbad.symm⟩)
          have hidc : rc0.1 * t.curscr.cols + rc0.2 ≠ q.1 * t.curscr.cols + q.2 := by
            rw [hcc]
            intro hbad
            exact hnd'.1 (List.mem_map.mpr ⟨q, hq, hbad.symm⟩)
          have hp := refreshCell_getcell_ne t rc0.1 rc0.2 q.1 q.2 hids hidc
          rw [hp.1, hp.2]
          exact hqe
        have htail := refreshGo_of_all_eq rest (refreshCell t rc0.1 rc0.2).1 hagree1
        have hhead := refreshCell_out_counts t rc0.1 rc0.2 hdiff
        simp only [refreshGo, htail]
        simpa using hhead

/-- C3: for pending and shown grids of equal dimensions differing in
exactly one cell, a single refresh emits at most one cursor movement
escape, at most one SGR style escape, and exactly one glyph write. -/
theorem claim3_diff_minimality (t : Terminal)
    (h1 : t.stdscr.cols = t.cols) (h2 : t.curscr.cols = t.cols)
    (hdiff : (cells t.rows t.cols).countP
        (fun rc => decide (t.stdscr.getcell rc.1 rc.2 ≠ t.curscr.getcell rc.1 rc.2)) = 1) :
    (refresh t).2.countP isMoveEsc ≤ 1 ∧ (refresh t).2.countP isSgrEsc ≤ 1 ∧
    (refresh t).2.countP isGlyphW = 1 :=
  refreshGo_counts_one (cells t.rows t.cols) t t.cols h1 h2 (cells_idx_nodup t.rows t.cols) hdiff

/-- C3 witness: a 1 x 2 terminal whose grids differ only in the second
cell; refresh emits one absolute move, no style escape and exactly one
glyph. -/
theorem claim3_diff_minimality_witness :
    (diffTerm.stdscr.cols = diffTerm.cols ∧ diffTerm.curscr.cols = diffTerm.cols ∧
      (cells diffTerm.rows diffTerm.cols).countP
        (fun rc => decide (diffTerm.stdscr.getcell rc.1 rc.2 ≠
          diffTerm.curscr.getcell rc.1 rc.2)) = 1) ∧
    (refresh diffTerm).2.countP isMoveEsc ≤ 1 ∧
    (refresh diffTerm).2.countP isSgrEsc ≤ 1 ∧
    (refresh diffTerm).2.countP isGlyphW = 1 :=
  ⟨⟨by decide, by decide, by decide⟩,
   claim3_diff_minimality diffTerm (by decide) (by decide) (by decide)⟩

/-- C4: with no writes between them, the second of two consecutive
refresh calls emits nothing at all — no glyph writes and no movement or
style escapes — because the first call updates every changed shown cell
to equal the pending cell. -/
theorem claim4_diff_idempotence (t : Terminal)
    (h1 : t.stdscr.cols = t.cols) (h2 : t.curscr.cols = t.cols)
    (h3 : t.stdscr.buf.length = t.rows * t.cols) (h4 : t.curscr.buf.length = t.rows * t.cols) :
    (refresh (refresh t).1).2 = [] := by
  have hd := refreshGo_dims (cells t.rows t.cols) t
  have hag := refreshGo_agrees (cells t.rows t.cols) t t.cols h1 h2
    (fun rc hrc => by
      have hm := (mem_cells t.rows t.cols rc).mp hrc
      rw [h3, h4]
      exact ⟨idx_lt hm.1 hm.2, idx_lt hm.1 hm.2⟩)
    (cells_idx_nodup t.rows t.cols)
  have hnil := refresh_snd_nil (refresh t).1 (by
    rw [show (refresh t).1.rows = t.rows from hd.1, show (refresh t).1.cols = t.cols from hd.2.1]
    exact hag)
  rw [hnil]

/-- C4 witness: on the 1 x 2 one-cell-diff state, the second refresh
emits nothing. -/
theorem claim4_diff_idempotence_witness :
    (diffTerm.stdscr.cols = diffTerm.cols ∧ diffTerm.curscr.cols = diffTerm.cols ∧
      diffTerm.stdscr.buf.length = diffTerm.rows * diffTerm.cols ∧
      diffTerm.curscr.buf.length = diffTerm.rows * diffTerm.cols) ∧
    (refresh (refresh diffTerm).1).2 = [] :=
  ⟨⟨by decide, by decide, by decide, by decide⟩,
   claim4_diff_idempotence diffTerm (by decide) (by decide) (by decide) (by decide)⟩
